import Mathlib

/-!
Verification of the selection-step bookkeeping engine of the
coffea_nano_framework repository (src/src/processor.py) and of the
dilepton trigger-resolution logic (src/selectors/dilepton.py).

Python dictionaries are embedded as insertion-ordered association lists,
Python exceptions as an explicit error type threaded through the state:
each engine operation returns the final state (with the partial mutations
performed before the point of failure, as in Python) together with an
optional propagated error.
-/

set_option maxHeartbeats 1000000

/-- A Python `dict` with string keys: an insertion-ordered association list
with unique keys (lookup returns the first match; assignment replaces in
place or appends). -/
abbrev PyDict (α : Type) : Type := List (String × α)

/-- `d[k]` lookup: first entry with key `k`. -/
def PyDict.find? {α : Type} : PyDict α → String → Option α
  | [], _ => none
  | (k', v) :: rest, k => if k' = k then some v else PyDict.find? rest k

/-- `k in d`. -/
def PyDict.contains {α : Type} (d : PyDict α) (k : String) : Bool :=
  (PyDict.find? d k).isSome

/-- `d[k] = v`: replace the existing entry in place, else append. -/
def PyDict.insert {α : Type} : PyDict α → String → α → PyDict α
  | [], k, v => [(k, v)]
  | (k', v') :: rest, k, v =>
    if k' = k then (k, v) :: rest else (k', v') :: PyDict.insert rest k v

/-- `list(d.keys())`. -/
def PyDict.keys {α : Type} (d : PyDict α) : List String := d.map Prod.fst

/-- Python exceptions relevant to the embedded code.  `keyError` is a dict
subscript failure (the spec's MissingParentError and MissingChannelMaskError
are `KeyError`s raised at the parent lookup and at the channel-wise mask
lookup respectively); `duplicateKey` and `unknownKey` are the Selection
Registry failures of spec section 4.1; `valueError` is Python `ValueError`. -/
inductive PyError where
  | keyError (key : String)
  | duplicateKey (key : String)
  | unknownKey (key : String)
  | valueError (msg : String)
  | typeError
deriving DecidableEq, Repr

/-- Modelled from the spec: the Selection Registry (coffea's
`PackedSelection`, an external collaborator of the repository) is a
write-once named-boolean-mask store.  Spec section 4.1: `add` fails with
DuplicateKeyError if the key is already present, `all` is the elementwise
conjunction of the named masks and fails with UnknownKeyError on an absent
key. -/
abbrev Registry : Type := PyDict (List Bool)

/-- Modelled from the spec: `Registry.add` registers a mask under a fresh
key and fails with DuplicateKeyError on a repeated key (spec section 4.1). -/
def Registry.add (r : Registry) (k : String) (m : List Bool) :
    Except PyError Registry :=
  if PyDict.contains r k then .error (.duplicateKey k)
  else .ok (r ++ [(k, m)])

/-- Modelled from the spec: the list of masks registered under `keys`,
failing with UnknownKeyError on an absent key (spec section 4.1). -/
def Registry.allMasks (r : Registry) : List String →
    Except PyError (List (List Bool))
  | [] => .ok []
  | k :: rest =>
    match PyDict.find? r k with
    | none => .error (.unknownKey k)
    | some m =>
      match Registry.allMasks r rest with
      | .error e => .error e
      | .ok ms => .ok (m :: ms)

/-- Modelled from the spec: `Registry.all(*keys)` is the elementwise logical
AND of the masks registered under `keys` (spec section 4.1).  Every call in
the repository passes at least one key; the empty call is rejected. -/
def Registry.all (r : Registry) (keys : List String) :
    Except PyError (List Bool) :=
  match Registry.allMasks r keys with
  | .error e => .error e
  | .ok [] => .error (.valueError "no cuts")
  | .ok (m :: ms) =>
    .ok (ms.foldl (fun acc x => List.zipWith (fun a b => a && b) acc x) m)

/-- The `step` class of src/src/processor.py (lines 15-39): one cutflow
Step Node.  The unused opaque `metadata` pass-through is omitted. -/
structure Step where
  name : String
  mask_labels : PyDict (List String)
  has_parent : Bool
  number_of_steps : Nat
deriving DecidableEq, Repr

/-- The label-merging loop of `step.__init__` for a parented step: for every
channel of the (deep-copied) parent `mask_labels`, concatenate the
channel's entry of the `mask_label` dict (`self.mask_labels[chan] +=
mask_label[chan]`), raising `KeyError` at the first channel absent from
`mask_label`.  Every call site of the class passes a dict, so only the dict
branch of the source is reachable. -/
def stepInitLabels : PyDict (List String) → PyDict (List String) →
    Except PyError (PyDict (List String))
  | [], _ => .ok []
  | (chan, ls) :: rest, ml =>
    match PyDict.find? ml chan with
    | none => .error (.keyError chan)
    | some extra =>
      match stepInitLabels rest ml with
      | .error e => .error e
      | .ok rest' => .ok ((chan, ls ++ extra) :: rest')

/-- `step.__init__` (src/src/processor.py lines 19-39): with a parent, the
parent's `mask_labels` are copied and extended per channel and
`number_of_steps` is incremented; without a parent the dict is taken as is. -/
def stepInit (name : String) (mask_label : PyDict (List String))
    (parent : Option Step) : Except PyError Step :=
  match parent with
  | some p =>
    match stepInitLabels p.mask_labels mask_label with
    | .error e => .error e
    | .ok mls => .ok ⟨name, mls, true, p.number_of_steps + 1⟩
  | none => .ok ⟨name, mask_label, false, 1⟩

/-- The `mask` argument of `add_selection_step`: a single boolean array
(`channel_wise=False`) or a channel-keyed dict of boolean arrays
(`channel_wise=True`). -/
inductive MaskArg where
  | single (m : List Bool)
  | perChannel (d : PyDict (List Bool))
deriving DecidableEq, Repr

/-- The engine state of `SelectionProcessor` (src/src/processor.py) that the
selection bookkeeping reads and writes: `channels`, the `PackedSelection`
registry (`self.selector`), the step mapping, the accumulated minitree and
the output tag.  `M` is the type of one materialized snapshot. -/
structure Engine (M : Type) where
  channels : PyDict (List Bool)
  selector : Registry
  steps : PyDict Step
  minitree : PyDict (PyDict M)
  step_tag : String
deriving DecidableEq, Repr

/-- The `for chan, chan_mask in self.channels.items(): self.selector.add(...)`
loop of `init_selection`, stopping at the first registry failure and
returning the registry as mutated so far. -/
def regLoop : List (String × List Bool) → Registry →
    Registry × Option PyError
  | [], r => (r, none)
  | (k, m) :: rest, r =>
    match Registry.add r k m with
    | .error e => (r, some e)
    | .ok r' => regLoop rest r'

/-- `SelectionProcessor.init_selection` (src/src/processor.py lines 110-119):
rejects an empty `channels` dict, creates the root Step Node `"init"` with
`mask_labels = {chan: [chan]}`, then registers every channel mask under the
channel's own name. -/
def init_selection {M : Type} (e : Engine M) : Engine M × Option PyError :=
  if e.channels.isEmpty then
    (e, some (.valueError "Channels dictionary is empty."))
  else
    let mask_labels : PyDict (List String) :=
      e.channels.map (fun p => (p.1, [p.1]))
    match stepInit "init" mask_labels none with
    | .error err => (e, some err)
    | .ok st =>
      let e1 : Engine M := { e with steps := PyDict.insert e.steps "init" st }
      let t := regLoop e1.channels e1.selector
      ({ e1 with selector := t.1 }, t.2)

/-- The channel-wise registration loop of `add_selection_step`
(src/src/processor.py lines 125-132): for each configured channel, look up
the channel's mask (KeyError if absent — the spec's MissingChannelMaskError),
register it under the composite key `f"{chan}_{step_label}"`, and record the
channel-specific label.  On failure the registry mutations already performed
are kept. -/
def cwRegLoop (step_label : String) (mask : PyDict (List Bool)) :
    List (String × List Bool) → Registry → PyDict (List String) →
    Registry × PyDict (List String) × Option PyError
  | [], r, mls => (r, mls, none)
  | (chan, _) :: rest, r, mls =>
    match PyDict.find? mask chan with
    | none => (r, mls, some (.keyError chan))
    | some m =>
      match Registry.add r (chan ++ "_" ++ step_label) m with
      | .error e => (r, mls, some e)
      | .ok r' =>
        cwRegLoop step_label mask rest r'
          (PyDict.insert mls chan [chan ++ "_" ++ step_label])

/-- The mask-registration phase of `add_selection_step` (everything before
the parent lookup): returns the engine with the registry as mutated so far,
the `mask_labels` dict built for the new step, and the propagated error if
any. -/
def maskPhase {M : Type} (e : Engine M) (step_label : String) (mask : MaskArg)
    (channel_wise : Bool) :
    Engine M × PyDict (List String) × Option PyError :=
  match channel_wise, mask with
  | true, .perChannel d =>
    let t := cwRegLoop step_label d e.channels e.selector []
    ({ e with selector := t.1 }, t.2.1, t.2.2)
  | true, .single _ => (e, [], some .typeError)
  | false, .single m =>
    let mls : PyDict (List String) :=
      e.channels.map (fun p => (p.1, [step_label]))
    match Registry.add e.selector step_label m with
    | .error err => (e, mls, some err)
    | .ok r' => ({ e with selector := r' }, mls, none)
  | false, .perChannel _ => (e, [], some .typeError)

/-- `SelectionProcessor.add_selection_step` (src/src/processor.py lines
121-137): ValueError on `parent=None`; otherwise register the mask(s), look
the parent up in `self.steps` (KeyError if absent — the spec's
MissingParentError), build the new Step Node and store it under
`step_label`.  The new node is stored only as the final action. -/
def add_selection_step {M : Type} (e : Engine M) (step_label : String)
    (mask : MaskArg) (parent : Option String) (channel_wise : Bool) :
    Engine M × Option PyError :=
  match parent with
  | none =>
    (e, some (.valueError "Parent step must be defined for add_selection_step"))
  | some pname =>
    let t := maskPhase e step_label mask channel_wise
    match t.2.2 with
    | some err => (t.1, some err)
    | none =>
      match PyDict.find? t.1.steps pname with
      | none => (t.1, some (.keyError pname))
      | some p =>
        match stepInit step_label t.2.1 (some p) with
        | .error err => (t.1, some err)
        | .ok st =>
          ({ t.1 with steps := PyDict.insert t.1.steps step_label st }, none)

/-- `events[mask]`: boolean-array filtering of an event batch. -/
def applyMask {E : Type} (events : List E) (m : List Bool) : List E :=
  (List.zip events m).filterMap (fun p => if p.2 then some p.1 else none)

/-- The snapshot value `make_snapshot(events[self.selector.all(*labels)],
structure)` computed for one channel, `none` when any lookup fails.  `mat`
is the external Snapshot Materializer (`selection_utils.make_snapshot`
applied to the configured structure). -/
def snapVal {E M : Type} (sel : Registry) (steps : PyDict Step)
    (events : List E) (mat : List E → M) (step_label chan : String) :
    Option M :=
  match PyDict.find? steps step_label with
  | none => none
  | some st =>
    match PyDict.find? st.mask_labels chan with
    | none => none
    | some labels =>
      match Registry.all sel labels with
      | .error _ => none
      | .ok m => some (mat (applyMask events m))

/-- `minitree[chan][key]`. -/
def lookup2 {M : Type} (mt : PyDict (PyDict M)) (chan key : String) :
    Option M :=
  match PyDict.find? mt chan with
  | none => none
  | some d => PyDict.find? d key

/-- The per-channel loop of `SelectionProcessor.make_snapshot`
(src/src/processor.py lines 98-108): ensure `minitree[chan]` exists, look up
the step and its labels, filter the events by the conjunction of the
channel's mask labels and store the materialized snapshot under
`step_tag + step_name`.  Only the minitree is written. -/
def snapLoop {E M : Type} (sel : Registry) (steps : PyDict Step)
    (events : List E) (mat : List E → M) (step_label tagName : String) :
    List (String × List Bool) → PyDict (PyDict M) →
    PyDict (PyDict M) × Option PyError
  | [], mt => (mt, none)
  | (chan, _) :: rest, mt =>
    let mt1 := if PyDict.contains mt chan then mt
               else PyDict.insert mt chan []
    match PyDict.find? steps step_label with
    | none => (mt1, some (.keyError step_label))
    | some st =>
      match PyDict.find? st.mask_labels chan with
      | none => (mt1, some (.keyError chan))
      | some labels =>
        match Registry.all sel labels with
        | .error e => (mt1, some e)
        | .ok m =>
          let v := mat (applyMask events m)
          let cd := (PyDict.find? mt1 chan).getD []
          let mt2 := PyDict.insert mt1 chan (PyDict.insert cd tagName v)
          snapLoop sel steps events mat step_label tagName rest mt2

/-- `SelectionProcessor.make_snapshot` (src/src/processor.py lines 98-108). -/
def make_snapshot {E M : Type} (e : Engine M) (events : List E)
    (mat : List E → M) (step_label step_name : String) :
    Engine M × Option PyError :=
  let t := snapLoop e.selector e.steps events mat step_label
    (e.step_tag ++ step_name) e.channels e.minitree
  ({ e with minitree := t.1 }, t.2)

/-- The HLT name-to-index map loop of `Selector.dilepton_hlt_mask`
(src/selectors/dilepton.py lines 326-330): scan the run's trigger-path list
in order, stopping (`break`) at the first name already present in the map. -/
def buildHltIndexMap : List String → Nat → PyDict Nat → PyDict Nat
  | [], _, m => m
  | name :: rest, idx, m =>
    if PyDict.contains m name then m
    else buildHltIndexMap rest (idx + 1) (PyDict.insert m name idx)

/-- `dataset[0].upper() + dataset[1:] if dataset else ""`
(src/selectors/dilepton.py line 347). -/
def capitalizeFirst (s : String) : String :=
  match s.data with
  | [] => ""
  | c :: cs => String.mk (Char.toUpper c :: cs)

/-- `cfg["process"].split("_")[-1]`: the substring after the last
underscore (the whole string when there is none). -/
def lastFieldAux : List Char → List Char → List Char
  | [], acc => acc.reverse
  | c :: rest, acc =>
    if c = '_' then lastFieldAux rest [] else lastFieldAux rest (c :: acc)

/-- The dataset-identity string of `dilepton_hlt_mask`
(src/selectors/dilepton.py lines 346-347): the sample-name suffix after the
last underscore, with its first character uppercased. -/
def datasetOf (process : String) : String :=
  capitalizeFirst (String.mk (lastFieldAux process.data []))

/-- One entry of `cfg["HLT"]`: the trigger-path names of the group and the
dataset names for which the group is authoritative. -/
structure HltGroup where
  triggers : List String
  datasets : List String
deriving DecidableEq, Repr

/-- The configuration slice read by `dilepton_hlt_mask`: the `isData` flag
(the source compares the string against `"True"`), the sample name
`process`, and the trigger-group dict `HLT`. -/
structure HltCfg where
  isData : String
  process : String
  hlt : PyDict HltGroup
deriving DecidableEq, Repr

/-- `ak.full_like(events.event, False)`: the all-false mask over the batch.
An event is embedded as the list of HLT indices it fired
(`events.HLTidx`). -/
def falseMask (events : List (List Nat)) : List Bool :=
  events.map (fun _ => false)

/-- The per-group mask of `dilepton_hlt_mask` (src/selectors/dilepton.py
lines 343-371): all-false when (for data) the dataset is not among the
group's datasets, or when no configured path resolves in the index map;
otherwise the OR over the group's resolvable path indices of "this event
fired this path". -/
def groupMask (events : List (List Nat)) (idxmap : PyDict Nat)
    (isData : Bool) (dataset : String) (g : HltGroup) : List Bool :=
  if isData && !(g.datasets.contains dataset) then falseMask events
  else
    let idxs := g.triggers.filterMap (fun p => PyDict.find? idxmap p)
    if idxs = [] then falseMask events
    else idxs.foldl
      (fun m i => List.zipWith (fun a b => a || b) m
        (events.map (fun ev => ev.contains i)))
      (events.map (fun _ => false))

/-- `tot_masks`: the group-name-to-mask dict built over `cfg["HLT"]`. -/
def totMasks (events : List (List Nat)) (idxmap : PyDict Nat)
    (isData : Bool) (dataset : String) (hlt : PyDict HltGroup) :
    PyDict (List Bool) :=
  hlt.map (fun p => (p.1, groupMask events idxmap isData dataset p.2))

/-- The helper `M(name)` of `dilepton_hlt_mask` (line 374):
`tot_masks.get(name, false_mask())`. -/
def mGet (tot : PyDict (List Bool)) (events : List (List Nat))
    (name : String) : List Bool :=
  (PyDict.find? tot name).getD (falseMask events)

/-- Elementwise OR of two masks. -/
def mOr (a b : List Bool) : List Bool := List.zipWith (fun x y => x || y) a b

/-- Elementwise AND of two masks. -/
def mAnd (a b : List Bool) : List Bool := List.zipWith (fun x y => x && y) a b

/-- Elementwise NOT of a mask. -/
def mNot (a : List Bool) : List Bool := a.map (fun x => !x)

/-- `Selector.dilepton_hlt_mask` (src/selectors/dilepton.py lines 316-429):
build the index map and the per-group masks, then combine them per
channel — for simulation the OR of the channel's groups, for data the
dataset-specific table with anti-overlap subtraction; a dataset without a
table row yields the all-false mask, a channel outside "ee"/"emu"/"mumu"
raises ValueError.  The Python `match` on strings is a sequence of equality
tests, written here as an if-chain. -/
def dilepton_hlt_mask (events : List (List Nat)) (channel : String)
    (hlt_map : List String) (cfg : HltCfg) : Except PyError (List Bool) :=
  let idxmap := buildHltIndexMap hlt_map 0 []
  let isData : Bool := decide (cfg.isData = "True")
  let dataset := datasetOf cfg.process
  let tot := totMasks events idxmap isData dataset cfg.hlt
  let m := fun name => mGet tot events name
  if isData = false then
    if channel = "ee" then .ok (mOr (m "ee") (m "se"))
    else if channel = "mumu" then .ok (mOr (m "mumu") (m "smu"))
    else if channel = "emu" then .ok (mOr (mOr (m "emu") (m "se")) (m "smu"))
    else .error (.valueError ("Channel " ++ channel ++ " not supported."))
  else
    if channel = "ee" then
      if dataset = "EGamma" then .ok (mOr (m "ee") (m "se"))
      else .ok (falseMask events)
    else if channel = "emu" then
      if dataset = "MuonEG" then .ok (m "emu")
      else if dataset = "EGamma" then .ok (mAnd (m "se") (mNot (m "emu")))
      else if dataset = "SingleMuon" then
        .ok (mAnd (mAnd (m "smu") (mNot (m "emu"))) (mNot (m "se")))
      else if dataset = "Muon" then
        .ok (mAnd (mAnd (m "smu") (mNot (m "emu"))) (mNot (m "se")))
      else .ok (falseMask events)
    else if channel = "mumu" then
      if dataset = "Muon" then .ok (mOr (m "mumu") (m "smu"))
      else if dataset = "SingleMuon" then .ok (mAnd (mNot (m "mumu")) (m "smu"))
      else if dataset = "DoubleMuon" then .ok (m "mumu")
      else .ok (falseMask events)
    else .error (.valueError ("Channel " ++ channel ++ " not supported."))

/-- Witness configuration: spec section 8 scenario channels. -/
def wChans : PyDict (List Bool) :=
  [("ee", [true, true, false]), ("mumu", [false, false, true])]

/-- Witness engine before `init_selection`. -/
def wE0 : Engine (List Nat) := ⟨wChans, [], [], [], ""⟩

/-- Witness engine after `init_selection`. -/
def wE1 : Engine (List Nat) := (init_selection wE0).1

/-- The root Step Node of the witness engine. -/
def wInit : Step := ⟨"init", [("ee", ["ee"]), ("mumu", ["mumu"])], false, 1⟩

/-- Spec section 8 scenario B: a fresh two-channel engine with symbolic
channel masks. -/
def c3base (b1 b2 : List Bool) : Engine (List Nat) :=
  ⟨[("ee", b1), ("mumu", b2)], [], [], [], ""⟩

/-- Spec section 8 scenario B run: `init_selection` followed by the
channel-wise step `"trig"` parented to `"init"`. -/
def c3run (b1 b2 m1 m2 : List Bool) : Engine (List Nat) × Option PyError :=
  add_selection_step (init_selection (c3base b1 b2)).1 "trig"
    (.perChannel [("ee", m1), ("mumu", m2)]) (some "init") true

/-- Witness event batch for the trigger logic: each event is the list of
HLT indices it fired. -/
def wEvents : List (List Nat) := [[0], [1], [0, 1], []]

/-- Witness run trigger-path list. -/
def wHltMap : List String := ["HLT_AB", "HLT_B"]

/-- Witness data-mode configuration: an EGamma sample with a
single-electron group and an emu cross-trigger group. -/
def wHltCfg : HltCfg :=
  ⟨"True", "run3_EGamma",
    [("se", ⟨["HLT_B"], ["EGamma"]⟩),
     ("emu", ⟨["HLT_AB"], ["MuonEG", "EGamma"]⟩)]⟩

theorem PyDict.find?_insert {α : Type} (d : PyDict α) (k : String) (v : α)
    (k' : String) :
    PyDict.find? (PyDict.insert d k v) k' =
      if k = k' then some v else PyDict.find? d k' := by
  induction d with
  | nil => simp [PyDict.insert, PyDict.find?]
  | cons hd tl ih =>
    obtain ⟨a, b⟩ := hd
    by_cases hak : a = k
    · subst hak
      by_cases hkk : a = k' <;> simp [PyDict.insert, PyDict.find?, hkk]
    · by_cases hak' : a = k'
      · subst hak'
        have hkk : ¬ (k = a) := fun h => hak h.symm
        simp [PyDict.insert, PyDict.find?, hak, hkk]
      · simp [PyDict.insert, PyDict.find?, hak, hak', ih]

theorem PyDict.find?_append_left {α : Type} {d1 : PyDict α} {k : String}
    {v : α} (d2 : PyDict α) (h : PyDict.find? d1 k = some v) :
    PyDict.find? (d1 ++ d2) k = some v := by
  induction d1 with
  | nil => simp [PyDict.find?] at h
  | cons hd tl ih =>
    obtain ⟨a, b⟩ := hd
    by_cases hak : a = k
    · simp_all [PyDict.find?]
    · simp_all [PyDict.find?]

theorem PyDict.find?_append_right {α : Type} {d1 : PyDict α} {k : String}
    (d2 : PyDict α) (h : PyDict.find? d1 k = none) :
    PyDict.find? (d1 ++ d2) k = PyDict.find? d2 k := by
  induction d1 with
  | nil => simp
  | cons hd tl ih =>
    obtain ⟨a, b⟩ := hd
    by_cases hak : a = k
    · simp_all [PyDict.find?]
    · simp_all [PyDict.find?]

theorem PyDict.contains_append_single_self {α : Type} (d : PyDict α)
    (k : String) (v : α) : PyDict.contains (d ++ [(k, v)]) k = true := by
  unfold PyDict.contains
  cases h : PyDict.find? d k with
  | none =>
    rw [PyDict.find?_append_right _ h]
    simp [PyDict.find?]
  | some w =>
    rw [PyDict.find?_append_left _ h]
    rfl

theorem PyDict.contains_append_single {α : Type} (d : PyDict α)
    (k k' : String) (v : α) (h1 : PyDict.contains d k' = false)
    (h2 : k ≠ k') : PyDict.contains (d ++ [(k, v)]) k' = false := by
  unfold PyDict.contains at *
  cases h : PyDict.find? d k' with
  | none =>
    rw [PyDict.find?_append_right _ h]
    simp [PyDict.find?, h2]
  | some w => rw [h] at h1; simp at h1

theorem PyDict.find?_map_key {α β : Type} (f : String → β) :
    ∀ (l : List (String × α)) (c : String) (v : β),
      PyDict.find? (l.map (fun p => (p.1, f p.1))) c = some v → v = f c := by
  intro l
  induction l with
  | nil => intro c v h; simp [PyDict.find?] at h
  | cons hd tl ih =>
    intro c v h
    obtain ⟨a, b⟩ := hd
    simp only [List.map_cons] at h
    by_cases hac : a = c
    · subst hac
      simp [PyDict.find?] at h
      exact h.symm
    · simp only [PyDict.find?, if_neg hac] at h
      exact ih c v h

theorem Registry.add_of_contains {r : Registry} {k : String}
    (m : List Bool) (h : PyDict.contains r k = true) :
    Registry.add r k m = .error (.duplicateKey k) := by
  simp [Registry.add, h]

theorem Registry.add_of_not_contains {r : Registry} {k : String}
    (m : List Bool) (h : PyDict.contains r k = false) :
    Registry.add r k m = .ok (r ++ [(k, m)]) := by
  simp [Registry.add, h]

theorem string_append_left_cancel {s a b : String} (h : s ++ a = s ++ b) :
    a = b := by
  have hd : (s ++ a).data = (s ++ b).data := congrArg String.data h
  rw [String.data_append, String.data_append] at hd
  have h2 := List.append_cancel_left hd
  cases a; cases b; exact congrArg String.mk h2

theorem string_append_right_cancel {s a b : String} (h : a ++ s = b ++ s) :
    a = b := by
  have hd : (a ++ s).data = (b ++ s).data := congrArg String.data h
  rw [String.data_append, String.data_append] at hd
  have h2 := List.append_cancel_right hd
  cases a; cases b; exact congrArg String.mk h2

theorem composite_key_ne {c1 c2 s : String} (h : c1 ≠ c2) :
    c1 ++ s ≠ c2 ++ s := fun he => h (string_append_right_cancel he)

theorem Registry.allMasks_append_single {r : Registry} :
    ∀ (ks : List String) (k : String) (ms : List (List Bool)),
      Registry.allMasks r (ks ++ [k]) = .ok ms →
      ∃ ms0 mk, Registry.allMasks r ks = .ok ms0 ∧
        PyDict.find? r k = some mk ∧ ms = ms0 ++ [mk] := by
  intro ks
  induction ks with
  | nil =>
    intro k ms h
    simp only [List.nil_append, Registry.allMasks] at h
    cases hf : PyDict.find? r k with
    | none => rw [hf] at h; cases h
    | some mk =>
      rw [hf] at h
      simp only [Registry.allMasks] at h
      cases h
      exact ⟨[], mk, rfl, rfl, rfl⟩
  | cons kh kt ih =>
    intro k ms h
    simp only [List.cons_append, Registry.allMasks] at h
    cases hf : PyDict.find? r kh with
    | none => rw [hf] at h; cases h
    | some m0 =>
      rw [hf] at h
      simp only [List.append_eq] at h
      cases hrec : Registry.allMasks r (kt ++ [k]) with
      | error e => rw [hrec] at h; cases h
      | ok msr =>
        rw [hrec] at h
        cases h
        obtain ⟨ms0, mk, h1, h2, h3⟩ := ih k msr hrec
        refine ⟨m0 :: ms0, mk, ?_, h2, by rw [h3]; rfl⟩
        simp only [Registry.allMasks, h1, hf]

theorem Registry.all_append_single {r : Registry} {ks : List String}
    {k : String} {m mp : List Bool}
    (h : Registry.all r (ks ++ [k]) = .ok m)
    (hp : Registry.all r ks = .ok mp) :
    ∃ mk, PyDict.find? r k = some mk ∧
      m = List.zipWith (fun a b => a && b) mp mk := by
  unfold Registry.all at h hp
  cases hms : Registry.allMasks r (ks ++ [k]) with
  | error e => rw [hms] at h; cases h
  | ok ms =>
    rw [hms] at h
    obtain ⟨ms0, mk, h1, h2, h3⟩ := Registry.allMasks_append_single ks k ms hms
    rw [h1] at hp
    cases ms0 with
    | nil => cases hp
    | cons m0 mrest =>
      cases hp
      subst h3
      simp only [List.cons_append] at h
      cases h
      refine ⟨mk, h2, ?_⟩
      rw [List.foldl_append]
      rfl

theorem zipWith_and_getD_true :
    ∀ (xs ys : List Bool) (i : Nat),
      (List.zipWith (fun a b => a && b) xs ys).getD i false = true →
      xs.getD i false = true := by
  intro xs
  induction xs with
  | nil => intro ys i h; simp at h
  | cons x xt ih =>
    intro ys i h
    cases ys with
    | nil => simp at h
    | cons y yt =>
      cases i with
      | zero =>
        simp only [List.zipWith, List.getD, List.getElem?_cons_zero] at h ⊢
        simp at h
        simp [h.1]
      | succ n =>
        simp only [List.zipWith, List.getD_cons_succ] at h ⊢
        exact ih yt n h

theorem count_true_zipWith_and_le :
    ∀ (xs ys : List Bool),
      (List.zipWith (fun a b => a && b) xs ys).count true ≤ xs.count true := by
  intro xs
  induction xs with
  | nil => intro ys; simp
  | cons x xt ih =>
    intro ys
    cases ys with
    | nil => simp
    | cons y yt =>
      simp only [List.zipWith, List.count_cons]
      have := ih yt
      cases x <;> cases y <;> simp <;> omega

theorem maskPhase_steps {M : Type} (e : Engine M) (lbl : String)
    (mask : MaskArg) (cw : Bool) :
    (maskPhase e lbl mask cw).1.steps = e.steps := by
  cases cw <;> cases mask <;> simp only [maskPhase]
  case false.single m =>
    cases h : Registry.add e.selector lbl m <;> simp

theorem add_selection_step_error_steps {M : Type} {e : Engine M}
    {lbl : String} {mask : MaskArg} {par : Option String} {cw : Bool}
    {err : PyError}
    (h : (add_selection_step e lbl mask par cw).2 = some err) :
    (add_selection_step e lbl mask par cw).1.steps = e.steps := by
  cases par with
  | none => rfl
  | some pname =>
    simp only [add_selection_step] at h ⊢
    cases he : (maskPhase e lbl mask cw).2.2 with
    | some e0 => simp only [he, maskPhase_steps]
    | none =>
      simp only [he]
      cases hp : PyDict.find? (maskPhase e lbl mask cw).1.steps pname with
      | none => simp only [maskPhase_steps]
      | some p =>
        simp only [hp]
        cases hs : stepInit lbl (maskPhase e lbl mask cw).2.1 (some p) with
        | error e1 => simp only [maskPhase_steps]
        | ok st => simp only [he, hp, hs] at h; simp at h

theorem cwRegLoop_mls_spec (lbl : String) (d : PyDict (List Bool)) :
    ∀ (chans : List (String × List Bool)) (r : Registry)
      (mls : PyDict (List String)),
      (∀ c v, PyDict.find? mls c = some v → v = [c ++ "_" ++ lbl]) →
      ∀ c v, PyDict.find? (cwRegLoop lbl d chans r mls).2.1 c = some v →
        v = [c ++ "_" ++ lbl] := by
  intro chans
  induction chans with
  | nil => intro r mls hinv c v h; exact hinv c v h
  | cons hd rest ih =>
    intro r mls hinv c v h
    obtain ⟨chan, cm⟩ := hd
    cases hm : PyDict.find? d chan with
    | none =>
      simp only [cwRegLoop, hm] at h
      exact hinv c v h
    | some m =>
      cases ha : Registry.add r (chan ++ "_" ++ lbl) m with
      | error e0 =>
        simp only [cwRegLoop, hm, ha] at h
        exact hinv c v h
      | ok r' =>
        simp only [cwRegLoop, hm, ha] at h
        refine ih r' _ ?_ c v h
        intro c' v' h'
        rw [PyDict.find?_insert] at h'
        by_cases hc : chan = c'
        · rw [if_pos hc] at h'
          cases h'
          rw [hc]
        · rw [if_neg hc] at h'
          exact hinv c' v' h'

theorem stepInitLabels_ok_find :
    ∀ (pl ml res : PyDict (List String)),
      stepInitLabels pl ml = .ok res →
      ∀ (chan : String) (pls : List String),
        PyDict.find? pl chan = some pls →
        ∃ a, PyDict.find? ml chan = some a ∧
          PyDict.find? res chan = some (pls ++ a) := by
  intro pl
  induction pl with
  | nil => intro ml res h chan pls hf; simp [PyDict.find?] at hf
  | cons hd rest ih =>
    intro ml res h chan pls hf
    obtain ⟨c, ls⟩ := hd
    simp only [stepInitLabels] at h
    cases hm : PyDict.find? ml c with
    | none => rw [hm] at h; cases h
    | some extra =>
      rw [hm] at h
      cases hr : stepInitLabels rest ml with
      | error e0 => rw [hr] at h; cases h
      | ok rest' =>
        rw [hr] at h
        cases h
        by_cases hc : c = chan
        · subst hc
          simp only [PyDict.find?, if_pos rfl] at hf ⊢
          cases hf
          exact ⟨extra, hm, rfl⟩
        · simp only [PyDict.find?, if_neg hc] at hf ⊢
          exact ih ml rest' hr chan pls hf

theorem contains_false_find?_none {α : Type} {mt : PyDict α} {c : String}
    (h : PyDict.contains mt c = false) : PyDict.find? mt c = none := by
  unfold PyDict.contains at h
  cases hf : PyDict.find? mt c with
  | none => rfl
  | some d => rw [hf] at h; simp at h

theorem lookup2_ensure {M : Type} (mt : PyDict (PyDict M))
    (c chan key : String) :
    lookup2 (if PyDict.contains mt c then mt else PyDict.insert mt c [])
      chan key = lookup2 mt chan key := by
  cases hc : PyDict.contains mt c with
  | true => simp [hc]
  | false =>
    simp only [hc, Bool.false_eq_true, if_false]
    unfold lookup2
    rw [PyDict.find?_insert]
    by_cases hcc : c = chan
    · subst hcc
      rw [if_pos rfl, contains_false_find?_none hc]
      simp [PyDict.find?]
    · rw [if_neg hcc]

theorem lookup2_insert_other {M : Type} (mt1 : PyDict (PyDict M))
    (c chan key : String) (d : PyDict M) (h : c ≠ chan) :
    lookup2 (PyDict.insert mt1 c d) chan key = lookup2 mt1 chan key := by
  unfold lookup2
  rw [PyDict.find?_insert, if_neg h]

theorem lookup2_insert_step {M : Type} (mt1 : PyDict (PyDict M))
    (c tn key chan : String) (v : M) (hk : key ≠ tn) :
    lookup2 (PyDict.insert mt1 c
        (PyDict.insert ((PyDict.find? mt1 c).getD []) tn v)) chan key =
      lookup2 mt1 chan key := by
  by_cases hcc : c = chan
  · subst hcc
    have htn : tn ≠ key := fun h => hk h.symm
    simp only [lookup2, PyDict.find?_insert, if_pos rfl, reduceIte,
      if_neg htn]
    cases hf : PyDict.find? mt1 c with
    | none => simp [hf, PyDict.find?]
    | some d => simp [hf]
  · exact lookup2_insert_other _ _ _ _ _ hcc

theorem lookup2_insert_self_key {M : Type} (mt1 : PyDict (PyDict M))
    (c tn : String) (v : M) :
    lookup2 (PyDict.insert mt1 c
        (PyDict.insert ((PyDict.find? mt1 c).getD []) tn v)) c tn = some v := by
  simp [lookup2, PyDict.find?_insert]

theorem snapVal_eq {E M : Type} {sel : Registry} {steps : PyDict Step}
    {events : List E} {mat : List E → M} {lbl chan : String} {st : Step}
    {labels : List String} {m : List Bool}
    (hst : PyDict.find? steps lbl = some st)
    (hlb : PyDict.find? st.mask_labels chan = some labels)
    (hall : Registry.all sel labels = .ok m) :
    snapVal sel steps events mat lbl chan =
      some (mat (applyMask events m)) := by
  simp [snapVal, hst, hlb, hall]

theorem snapLoop_preserves_other_keys {E M : Type} (sel : Registry)
    (steps : PyDict Step) (events : List E) (mat : List E → M)
    (lbl tn : String) :
    ∀ (chans : List (String × List Bool)) (mt : PyDict (PyDict M))
      (chan key : String), key ≠ tn →
      lookup2 (snapLoop sel steps events mat lbl tn chans mt).1 chan key =
        lookup2 mt chan key := by
  intro chans
  induction chans with
  | nil => intro mt chan key hk; rfl
  | cons hd rest ih =>
    intro mt chan key hk
    obtain ⟨c, cm⟩ := hd
    cases hst : PyDict.find? steps lbl with
    | none =>
      simp only [snapLoop, hst]
      exact lookup2_ensure mt c chan key
    | some st =>
      cases hlb : PyDict.find? st.mask_labels c with
      | none =>
        simp only [snapLoop, hst, hlb]
        exact lookup2_ensure mt c chan key
      | some labels =>
        cases hall : Registry.all sel labels with
        | error e0 =>
          simp only [snapLoop, hst, hlb, hall]
          exact lookup2_ensure mt c chan key
        | ok m =>
          simp only [snapLoop, hst, hlb, hall]
          rw [ih _ chan key hk, lookup2_insert_step _ _ _ _ _ _ hk,
            lookup2_ensure mt c chan key]

theorem snapLoop_lookup_or {E M : Type} (sel : Registry)
    (steps : PyDict Step) (events : List E) (mat : List E → M)
    (lbl tn : String) :
    ∀ (chans : List (String × List Bool)) (mt mt' : PyDict (PyDict M)),
      snapLoop sel steps events mat lbl tn chans mt = (mt', none) →
      ∀ chan, lookup2 mt' chan tn = lookup2 mt chan tn ∨
        lookup2 mt' chan tn = snapVal sel steps events mat lbl chan := by
  intro chans
  induction chans with
  | nil =>
    intro mt mt' h chan
    simp only [snapLoop] at h
    cases h
    exact Or.inl rfl
  | cons hd rest ih =>
    intro mt mt' h chan
    obtain ⟨c, cm⟩ := hd
    cases hst : PyDict.find? steps lbl with
    | none => simp only [snapLoop, hst] at h; cases h
    | some st =>
      cases hlb : PyDict.find? st.mask_labels c with
      | none => simp only [snapLoop, hst, hlb] at h; cases h
      | some labels =>
        cases hall : Registry.all sel labels with
        | error e0 => simp only [snapLoop, hst, hlb, hall] at h; cases h
        | ok m =>
          simp only [snapLoop, hst, hlb, hall] at h
          rcases ih _ _ h chan with hl | hr
          · by_cases hcc : c = chan
            · subst hcc
              rw [hl, lookup2_insert_self_key]
              right
              rw [snapVal_eq hst hlb hall]
            · left
              rw [hl, lookup2_insert_other _ _ _ _ _ hcc,
                lookup2_ensure mt c chan tn]
          · exact Or.inr hr

theorem snapLoop_lookup_mem {E M : Type} (sel : Registry)
    (steps : PyDict Step) (events : List E) (mat : List E → M)
    (lbl tn : String) :
    ∀ (chans : List (String × List Bool)) (mt mt' : PyDict (PyDict M)),
      snapLoop sel steps events mat lbl tn chans mt = (mt', none) →
      ∀ chan, chan ∈ List.map Prod.fst chans →
      ∃ v, snapVal sel steps events mat lbl chan = some v ∧
        lookup2 mt' chan tn = some v := by
  intro chans
  induction chans with
  | nil => intro mt mt' h chan hmem; simp at hmem
  | cons hd rest ih =>
    intro mt mt' h chan hmem
    obtain ⟨c, cm⟩ := hd
    cases hst : PyDict.find? steps lbl with
    | none => simp only [snapLoop, hst] at h; cases h
    | some st =>
      cases hlb : PyDict.find? st.mask_labels c with
      | none => simp only [snapLoop, hst, hlb] at h; cases h
      | some labels =>
        cases hall : Registry.all sel labels with
        | error e0 => simp only [snapLoop, hst, hlb, hall] at h; cases h
        | ok m =>
          simp only [snapLoop, hst, hlb, hall] at h
          simp only [List.map_cons, List.mem_cons] at hmem
          rcases hmem with hc | hrest
          · subst hc
            refine ⟨mat (applyMask events m), snapVal_eq hst hlb hall, ?_⟩
            rcases snapLoop_lookup_or sel steps events mat lbl tn rest _ _
                h chan with hl | hr
            · rw [hl, lookup2_insert_self_key]
            · rw [hr, snapVal_eq hst hlb hall]
          · exact ih _ _ h chan hrest

/-- C3: a channel-wise `add_selection_step` registers, for every configured
channel, the channel's mask under the composite key `f"{channel}_{step_label}"`
and the new Step Node appends exactly that channel-specific label; after
`init_selection` and `add_selection_step(step_label="trig", mask={"ee": m1,
"mumu": m2}, parent="init", channel_wise=True)` the node `"trig"` has
`mask_labels["ee"] == ["ee", "ee_trig"]` and `Registry.all("ee", "ee_trig")`
is the elementwise AND of the `"ee"` base channel mask and `m1`. -/
theorem c3_channel_wise_step (b1 b2 m1 m2 : List Bool) :
    (c3run b1 b2 m1 m2).2 = none ∧
    PyDict.find? (c3run b1 b2 m1 m2).1.selector "ee_trig" = some m1 ∧
    PyDict.find? (c3run b1 b2 m1 m2).1.selector "mumu_trig" = some m2 ∧
    (PyDict.find? (c3run b1 b2 m1 m2).1.steps "trig").map Step.mask_labels =
      some [("ee", ["ee", "ee_trig"]), ("mumu", ["mumu", "mumu_trig"])] ∧
    Registry.all (c3run b1 b2 m1 m2).1.selector ["ee", "ee_trig"] =
      .ok (List.zipWith (fun a b => a && b) b1 m1) := by
  exact ⟨rfl, rfl, rfl, rfl, rfl⟩

/-- C1: for every non-root Step Node created by a successful
`add_selection_step` with parent `P`, and every channel of the parent's
`mask_labels` (the configured channels), the new node's `mask_labels[chan]`
is `P.mask_labels[chan]` with exactly one label appended — the shared
`step_label` when `channel_wise=False`, the channel-specific
`f"{chan}_{step_label}"` when `channel_wise=True` — so
`S.mask_labels[chan][:-1] == P.mask_labels[chan]`, the list strictly grows
by one, and `number_of_steps` (the parent-chain depth plus one, hence the
label-list length) increments by one. -/
theorem c1_step_lineage {M : Type} (e e' : Engine M) (lbl pname : String)
    (mask : MaskArg) (cw : Bool) (P : Step)
    (hp : PyDict.find? e.steps pname = some P)
    (hrun : add_selection_step e lbl mask (some pname) cw = (e', none)) :
    ∃ S, PyDict.find? e'.steps lbl = some S ∧
      S.number_of_steps = P.number_of_steps + 1 ∧
      ∀ chan pls, PyDict.find? P.mask_labels chan = some pls →
        PyDict.find? S.mask_labels chan =
          some (pls ++ [if cw then chan ++ "_" ++ lbl else lbl]) ∧
        (pls ++ [if cw then chan ++ "_" ++ lbl else lbl]).dropLast = pls ∧
        (pls ++ [if cw then chan ++ "_" ++ lbl else lbl]).length =
          pls.length + 1 := by
  have hsteps := maskPhase_steps e lbl mask cw
  cases he : (maskPhase e lbl mask cw).2.2 with
  | some err => simp only [add_selection_step, he] at hrun; cases hrun
  | none =>
    simp only [add_selection_step, he] at hrun
    cases hf : PyDict.find? (maskPhase e lbl mask cw).1.steps pname with
    | none => simp only [hf] at hrun; cases hrun
    | some p =>
      have hpP : p = P := by
        rw [hsteps] at hf
        rw [hf] at hp
        exact (Option.some.injEq _ _).mp hp
      subst hpP
      cases hsl : stepInitLabels p.mask_labels (maskPhase e lbl mask cw).2.1 with
      | error e0 =>
        simp only [hf, stepInit, hsl] at hrun
        cases hrun
      | ok mls' =>
        simp only [hf, stepInit, hsl] at hrun
        have he' : e' = { (maskPhase e lbl mask cw).1 with
            steps := PyDict.insert (maskPhase e lbl mask cw).1.steps lbl
              ⟨lbl, mls', true, p.number_of_steps + 1⟩ } := by
          have := congrArg Prod.fst hrun
          exact this.symm
        refine ⟨⟨lbl, mls', true, p.number_of_steps + 1⟩, ?_, rfl, ?_⟩
        · rw [he']
          show PyDict.find? (PyDict.insert _ lbl _) lbl = _
          rw [PyDict.find?_insert, if_pos rfl]
        · intro chan pls hpls
          obtain ⟨a, hfa, hres⟩ :=
            stepInitLabels_ok_find _ _ _ hsl chan pls hpls
          have ha : a = [if cw then chan ++ "_" ++ lbl else lbl] := by
            cases cw with
            | true =>
              cases mask with
              | single m => simp [maskPhase] at he
              | perChannel d =>
                simp only [maskPhase] at hfa
                have := cwRegLoop_mls_spec lbl d e.channels e.selector []
                  (by intro c v h; simp [PyDict.find?] at h) chan a hfa
                simpa using this
            | false =>
              cases mask with
              | perChannel d => simp [maskPhase] at he
              | single m =>
                cases hadd : Registry.add e.selector lbl m with
                | error e1 => simp [maskPhase, hadd] at he
                | ok r' =>
                  simp only [maskPhase, hadd] at hfa
                  have := PyDict.find?_map_key (fun _ => [lbl])
                    e.channels chan a hfa
                  simpa using this
          subst ha
          refine ⟨hres, List.dropLast_concat, by simp⟩

/-- Witness for C1 at a concrete input: the step `"cutA"` added to the
initialized two-channel witness engine with a shared (non channel-wise)
mask. -/
theorem c1_step_lineage_witness :
    ∃ S, PyDict.find? (add_selection_step wE1 "cutA"
        (.single [true, false, true]) (some "init") false).1.steps "cutA" =
        some S ∧
      S.number_of_steps = wInit.number_of_steps + 1 ∧
      ∀ chan pls, PyDict.find? wInit.mask_labels chan = some pls →
        PyDict.find? S.mask_labels chan =
          some (pls ++ [if false then chan ++ "_" ++ "cutA" else "cutA"]) ∧
        (pls ++ [if false then chan ++ "_" ++ "cutA" else "cutA"]).dropLast
          = pls ∧
        (pls ++ [if false then chan ++ "_" ++ "cutA" else "cutA"]).length
          = pls.length + 1 :=
  c1_step_lineage wE1
    (add_selection_step wE1 "cutA" (.single [true, false, true])
      (some "init") false).1
    "cutA" "init" (.single [true, false, true]) false wInit rfl rfl

/-- C2: for a child Step Node `S` whose channel label list extends its
parent `P`'s by one label (the lineage invariant), the conjunction
`Registry.all(*S.mask_labels[chan])` implies
`Registry.all(*P.mask_labels[chan])` elementwise, and the survivor count at
the child is at most the survivor count at the parent. -/
theorem c2_conjunction_monotone (r : Registry) (S P : Step) (chan : String)
    (pls : List String) (a : String) (ms mp : List Bool)
    (_hS : PyDict.find? S.mask_labels chan = some (pls ++ [a]))
    (_hP : PyDict.find? P.mask_labels chan = some pls)
    (hs : Registry.all r (pls ++ [a]) = .ok ms)
    (hp : Registry.all r pls = .ok mp) :
    (∀ i : Nat, ms.getD i false = true → mp.getD i false = true) ∧
    ms.count true ≤ mp.count true := by
  obtain ⟨mk, hmk, hzip⟩ := Registry.all_append_single hs hp
  subst hzip
  exact ⟨fun i h => zipWith_and_getD_true mp mk i h,
    count_true_zipWith_and_le mp mk⟩

/-- Witness for C2 at a concrete input: registry and steps of the witness
engine after adding the non channel-wise step `"cutA"` (spec section 8
scenario A: survivors `[T,F,F]` against the `"ee"` base mask `[T,T,F]`). -/
theorem c2_conjunction_monotone_witness :
    (∀ i : Nat,
      (([true, false, false] : List Bool).getD i false = true →
        ([true, true, false] : List Bool).getD i false = true)) ∧
    ([true, false, false] : List Bool).count true ≤
      ([true, true, false] : List Bool).count true :=
  c2_conjunction_monotone
    [("ee", [true, true, false]), ("mumu", [false, false, true]),
      ("cutA", [true, false, true])]
    ⟨"cutA", [("ee", ["ee", "cutA"]), ("mumu", ["mumu", "cutA"])], true, 2⟩
    wInit "ee" ["ee"] "cutA" [true, false, false] [true, true, false]
    rfl rfl rfl rfl

/-- C4: when `add_selection_step` is called with a `parent` name that is not
a registered step and the mask-registration phase itself raises nothing, the
call fails with the parent-lookup `KeyError` (the spec's MissingParentError)
and no new step is created: the step mapping is left unchanged. -/
theorem c4_missing_parent {M : Type} (e : Engine M) (lbl pname : String)
    (mask : MaskArg) (cw : Bool)
    (hphase : (maskPhase e lbl mask cw).2.2 = none)
    (hpar : PyDict.find? e.steps pname = none) :
    (add_selection_step e lbl mask (some pname) cw).2 =
      some (.keyError pname) ∧
    (add_selection_step e lbl mask (some pname) cw).1.steps = e.steps := by
  have hsteps := maskPhase_steps e lbl mask cw
  have hf : PyDict.find? (maskPhase e lbl mask cw).1.steps pname = none := by
    rw [hsteps]; exact hpar
  constructor <;> simp only [add_selection_step, hphase, hsteps, hpar]

/-- Witness for C4 at a concrete input: `parent="doesnotexist"` on the
initialized witness engine. -/
theorem c4_missing_parent_witness :
    (add_selection_step wE1 "cutA" (.single [true, false, true])
      (some "doesnotexist") false).2 = some (.keyError "doesnotexist") ∧
    (add_selection_step wE1 "cutA" (.single [true, false, true])
      (some "doesnotexist") false).1.steps = wE1.steps :=
  c4_missing_parent wE1 "cutA" "doesnotexist"
    (.single [true, false, true]) false rfl rfl

theorem add_selection_step_single_success_selector {M : Type}
    {e e1 : Engine M} {lbl : String} {m : List Bool} {p : String}
    (h1 : add_selection_step e lbl (.single m) (some p) false = (e1, none)) :
    e1.selector = e.selector ++ [(lbl, m)] := by
  cases hadd : Registry.add e.selector lbl m with
  | error e0 => simp only [add_selection_step, maskPhase, hadd] at h1; cases h1
  | ok r' =>
    have hcontains : PyDict.contains e.selector lbl = false := by
      cases hc : PyDict.contains e.selector lbl with
      | false => rfl
      | true => rw [Registry.add_of_contains m hc] at hadd; cases hadd
    have hr' : r' = e.selector ++ [(lbl, m)] := by
      rw [Registry.add_of_not_contains m hcontains] at hadd
      cases hadd; rfl
    simp only [add_selection_step, maskPhase, hadd] at h1
    cases hf : PyDict.find? e.steps p with
    | none => simp only [hf] at h1; cases h1
    | some pstep =>
      cases hsi : stepInit lbl
          (List.map (fun p => (p.1, [lbl])) e.channels) (some pstep) with
      | error e2 => simp only [hf, hsi] at h1; cases h1
      | ok st =>
        simp only [hf, hsi] at h1
        injection h1 with h2 h3
        rw [← h2]
        exact hr'

/-- C5: re-adding an existing Named-Mask key to the Selection Registry fails
with DuplicateKeyError instead of silently overwriting, and consequently a
second `add_selection_step` with an already-used `step_label` (after a first
successful one) fails with DuplicateKeyError for that label. -/
theorem c5_duplicate_step_label {M : Type} (r : Registry) (k : String)
    (mm : List Bool) (e e1 : Engine M) (lbl : String) (m m' : List Bool)
    (p p' : String)
    (hdup : PyDict.contains r k = true)
    (h1 : add_selection_step e lbl (.single m) (some p) false = (e1, none)) :
    Registry.add r k mm = .error (.duplicateKey k) ∧
    (add_selection_step e1 lbl (.single m') (some p') false).2 =
      some (.duplicateKey lbl) := by
  refine ⟨Registry.add_of_contains mm hdup, ?_⟩
  have hsel : PyDict.contains e1.selector lbl = true := by
    rw [add_selection_step_single_success_selector h1]
    exact PyDict.contains_append_single_self e.selector lbl m
  simp only [add_selection_step, maskPhase, Registry.add_of_contains m' hsel]

/-- Witness for C5 at a concrete input: a duplicate registry key `"ee"` and
a repeated step label `"cutA"` on the witness engine. -/
theorem c5_duplicate_step_label_witness :
    Registry.add wE1.selector "ee" [true] = .error (.duplicateKey "ee") ∧
    (add_selection_step
      (add_selection_step wE1 "cutA" (.single [true, false, true])
        (some "init") false).1
      "cutA" (.single [false, true, false]) (some "cutA") false).2 =
      some (.duplicateKey "cutA") :=
  c5_duplicate_step_label wE1.selector "ee" [true] wE1
    (add_selection_step wE1 "cutA" (.single [true, false, true])
      (some "init") false).1
    "cutA" [true, false, true] [false, true, false] "init" "cutA" rfl rfl

theorem cwRegLoop_missing_channel (lbl : String) (d : PyDict (List Bool)) :
    ∀ (chans : List (String × List Bool)) (r : Registry)
      (mls : PyDict (List String)),
      (List.map Prod.fst chans).Nodup →
      (∀ chan ∈ List.map Prod.fst chans,
        PyDict.contains r (chan ++ "_" ++ lbl) = false) →
      (∃ chan ∈ List.map Prod.fst chans, PyDict.find? d chan = none) →
      ∃ c ∈ List.map Prod.fst chans, PyDict.find? d c = none ∧
        (cwRegLoop lbl d chans r mls).2.2 = some (.keyError c) := by
  intro chans
  induction chans with
  | nil =>
    rintro r mls _ _ ⟨c, hc, _⟩
    simp at hc
  | cons hd rest ih =>
    rintro r mls hnodup hfresh ⟨c0, hc0mem, hc0none⟩
    obtain ⟨chan, cm⟩ := hd
    cases hm : PyDict.find? d chan with
    | none =>
      refine ⟨chan, by simp, hm, ?_⟩
      simp only [cwRegLoop, hm]
    | some m =>
      have hc0rest : c0 ∈ List.map Prod.fst rest := by
        simp only [List.map_cons, List.mem_cons] at hc0mem
        rcases hc0mem with h | h
        · subst h; rw [hm] at hc0none; cases hc0none
        · exact h
      have hfresh_head : PyDict.contains r (chan ++ "_" ++ lbl) = false :=
        hfresh chan (by simp)
      have hadd : Registry.add r (chan ++ "_" ++ lbl) m =
          .ok (r ++ [(chan ++ "_" ++ lbl, m)]) :=
        Registry.add_of_not_contains m hfresh_head
      have hnodup' : (List.map Prod.fst rest).Nodup := by
        simp only [List.map_cons, List.nodup_cons] at hnodup
        exact hnodup.2
      have hchan_notin : chan ∉ List.map Prod.fst rest := by
        simp only [List.map_cons, List.nodup_cons] at hnodup
        exact hnodup.1
      have hfresh' : ∀ ch ∈ List.map Prod.fst rest,
          PyDict.contains (r ++ [(chan ++ "_" ++ lbl, m)])
            (ch ++ "_" ++ lbl) = false := by
        intro ch hch
        apply PyDict.contains_append_single
        · exact hfresh ch (by simp [hch])
        · intro heq
          have h1 := string_append_right_cancel heq
          have h2 := string_append_right_cancel h1
          rw [← h2] at hch
          exact hchan_notin hch
      obtain ⟨c, hcmem, hcnone, hres⟩ :=
        ih (r ++ [(chan ++ "_" ++ lbl, m)])
          (PyDict.insert mls chan [chan ++ "_" ++ lbl])
          hnodup' hfresh' ⟨c0, hc0rest, hc0none⟩
      refine ⟨c, by simp [hcmem], hcnone, ?_⟩
      simp only [cwRegLoop, hm, hadd]
      exact hres

/-- C6: a channel-wise `add_selection_step` whose mask mapping lacks an
entry for a configured channel fails with the mask-lookup `KeyError` on
that channel (the spec's MissingChannelMaskError), and the step mapping is
left unchanged (freshness of the composite registry keys, guaranteed by a
fresh step label, keeps the registry from failing first; the configured
channel names are pairwise distinct as keys of a Python dict). -/
theorem c6_missing_channel_mask {M : Type} (e : Engine M)
    (lbl pname : String) (d : PyDict (List Bool))
    (hnodup : (List.map Prod.fst e.channels).Nodup)
    (hfresh : ∀ chan ∈ List.map Prod.fst e.channels,
      PyDict.contains e.selector (chan ++ "_" ++ lbl) = false)
    (hmiss : ∃ chan ∈ List.map Prod.fst e.channels,
      PyDict.find? d chan = none) :
    ∃ c ∈ List.map Prod.fst e.channels, PyDict.find? d c = none ∧
      (add_selection_step e lbl (.perChannel d) (some pname) true).2 =
        some (.keyError c) ∧
      (add_selection_step e lbl (.perChannel d) (some pname) true).1.steps =
        e.steps := by
  obtain ⟨c, hcmem, hcnone, hres⟩ :=
    cwRegLoop_missing_channel lbl d e.channels e.selector []
      hnodup hfresh hmiss
  have herr :
      (add_selection_step e lbl (.perChannel d) (some pname) true).2 =
        some (.keyError c) := by
    simp only [add_selection_step, maskPhase, hres]
  refine ⟨c, hcmem, hcnone, herr, add_selection_step_error_steps herr⟩

/-- Witness for C6 at a concrete input: a channel-wise mask mapping that
covers `"ee"` but omits the configured channel `"mumu"`. -/
theorem c6_missing_channel_mask_witness :
    ∃ c ∈ List.map Prod.fst wE1.channels,
      PyDict.find? [("ee", [true, true, false])] c = none ∧
      (add_selection_step wE1 "trig6"
        (.perChannel [("ee", [true, true, false])]) (some "init") true).2 =
        some (.keyError c) ∧
      (add_selection_step wE1 "trig6"
        (.perChannel [("ee", [true, true, false])]) (some "init")
        true).1.steps = wE1.steps :=
  c6_missing_channel_mask wE1 "trig6" "init" [("ee", [true, true, false])]
    (by decide) (by decide) (by decide)

/-- C10: `add_selection_step` is not atomic on failure — on any failing
call the step mapping is left unchanged (the new Step Node is stored only
as the final action), but registry keys registered before the failure
remain: a channel-wise call over channels `c1, c2, ...` whose mask covers
`c1` but lacks `c2` fails with the `KeyError` on `c2` while leaving the
composite key `f"{c1}_{step_label}"` registered. -/
theorem c10_partial_registry_on_failure {M : Type}
    (e : Engine M) (lbl : String) (mask : MaskArg) (par : Option String)
    (cw : Bool) (err : PyError)
    (e2 : Engine M) (lbl2 c1 c2 pn : String) (m1 m2 bm : List Bool)
    (rest : List (String × List Bool)) (d : PyDict (List Bool))
    (hfail : (add_selection_step e lbl mask par cw).2 = some err)
    (hch : e2.channels = (c1, m1) :: (c2, m2) :: rest)
    (hd1 : PyDict.find? d c1 = some bm)
    (hd2 : PyDict.find? d c2 = none)
    (hfresh : PyDict.contains e2.selector (c1 ++ "_" ++ lbl2) = false) :
    (add_selection_step e lbl mask par cw).1.steps = e.steps ∧
    (add_selection_step e2 lbl2 (.perChannel d) (some pn) true).2 =
      some (.keyError c2) ∧
    PyDict.contains
      (add_selection_step e2 lbl2 (.perChannel d) (some pn) true).1.selector
      (c1 ++ "_" ++ lbl2) = true ∧
    (add_selection_step e2 lbl2 (.perChannel d) (some pn) true).1.steps =
      e2.steps := by
  have hadd : Registry.add e2.selector (c1 ++ "_" ++ lbl2) bm =
      .ok (e2.selector ++ [(c1 ++ "_" ++ lbl2, bm)]) :=
    Registry.add_of_not_contains bm hfresh
  have hloop1 : (cwRegLoop lbl2 d e2.channels e2.selector []).2.2 =
      some (.keyError c2) := by
    rw [hch]
    simp only [cwRegLoop, hd1, hadd, hd2]
  have hloop2 : (cwRegLoop lbl2 d e2.channels e2.selector []).1 =
      e2.selector ++ [(c1 ++ "_" ++ lbl2, bm)] := by
    rw [hch]
    simp only [cwRegLoop, hd1, hadd, hd2]
  have herr : (add_selection_step e2 lbl2 (.perChannel d) (some pn)
      true).2 = some (.keyError c2) := by
    simp only [add_selection_step, maskPhase, hloop1]
  have hsel : (add_selection_step e2 lbl2 (.perChannel d) (some pn)
      true).1.selector = e2.selector ++ [(c1 ++ "_" ++ lbl2, bm)] := by
    simp only [add_selection_step, maskPhase, hloop1]
    exact hloop2
  refine ⟨add_selection_step_error_steps hfail, herr, ?_,
    add_selection_step_error_steps herr⟩
  rw [hsel]
  exact PyDict.contains_append_single_self _ _ _

/-- Witness for C10 at concrete inputs: a failing call with an unknown
parent, and a channel-wise call on the witness engine whose mask covers
`"ee"` but omits `"mumu"`. -/
theorem c10_partial_registry_on_failure_witness :
    (add_selection_step wE1 "cutX" (.single [true])
      (some "doesnotexist") false).1.steps = wE1.steps ∧
    (add_selection_step wE1 "trig10"
      (.perChannel [("ee", [true, false, false])]) (some "init") true).2 =
      some (.keyError "mumu") ∧
    PyDict.contains
      (add_selection_step wE1 "trig10"
        (.perChannel [("ee", [true, false, false])]) (some "init")
        true).1.selector ("ee" ++ "_" ++ "trig10") = true ∧
    (add_selection_step wE1 "trig10"
      (.perChannel [("ee", [true, false, false])]) (some "init")
      true).1.steps = wE1.steps :=
  c10_partial_registry_on_failure wE1 "cutX" (.single [true])
    (some "doesnotexist") false (.keyError "doesnotexist") wE1 "trig10"
    "ee" "mumu" "init" [true, true, false] [false, false, true]
    [true, false, false] [] [("ee", [true, false, false])]
    rfl rfl rfl rfl rfl

/-- C7: `make_snapshot` mutates neither the Selection Registry nor the step
mapping; snapshotting the same `step_label` twice under two distinct output
names stores, for every configured channel, two independent minitree
entries with identical content. -/
theorem c7_snapshot_no_mutation {E M : Type} (e e1 e2 : Engine M)
    (events : List E) (mat : List E → M) (lbl n1 n2 : String)
    (h1 : make_snapshot e events mat lbl n1 = (e1, none))
    (h2 : make_snapshot e1 events mat lbl n2 = (e2, none))
    (hne : n1 ≠ n2) :
    e1.selector = e.selector ∧ e1.steps = e.steps ∧
    e2.selector = e.selector ∧ e2.steps = e.steps ∧
    ∀ chan ∈ List.map Prod.fst e.channels, ∃ v,
      lookup2 e2.minitree chan (e.step_tag ++ n1) = some v ∧
      lookup2 e2.minitree chan (e.step_tag ++ n2) = some v := by
  simp only [make_snapshot] at h1
  injection h1 with he1 ht1
  subst he1
  simp only [make_snapshot] at h2
  injection h2 with he2 ht2
  subst he2
  refine ⟨rfl, rfl, rfl, rfl, ?_⟩
  intro chan hmem
  have hs1 : snapLoop e.selector e.steps events mat lbl (e.step_tag ++ n1)
      e.channels e.minitree =
      ((snapLoop e.selector e.steps events mat lbl (e.step_tag ++ n1)
        e.channels e.minitree).1, none) := by
    rw [← ht1]
  have hs2 : snapLoop e.selector e.steps events mat lbl (e.step_tag ++ n2)
      e.channels
      (snapLoop e.selector e.steps events mat lbl (e.step_tag ++ n1)
        e.channels e.minitree).1 =
      ((snapLoop e.selector e.steps events mat lbl (e.step_tag ++ n2)
        e.channels
        (snapLoop e.selector e.steps events mat lbl (e.step_tag ++ n1)
          e.channels e.minitree).1).1, none) := by
    rw [← ht2]
  obtain ⟨v1, hv1, hl1⟩ := snapLoop_lookup_mem e.selector e.steps events
    mat lbl (e.step_tag ++ n1) e.channels _ _ hs1 chan hmem
  obtain ⟨v2, hv2, hl2⟩ := snapLoop_lookup_mem e.selector e.steps events
    mat lbl (e.step_tag ++ n2) e.channels _ _ hs2 chan hmem
  have hvv : v1 = v2 := by
    rw [hv1] at hv2
    exact Option.some.inj hv2
  have hkey : e.step_tag ++ n1 ≠ e.step_tag ++ n2 :=
    fun h => hne (string_append_left_cancel h)
  refine ⟨v1, ?_, ?_⟩
  · rw [snapLoop_preserves_other_keys e.selector e.steps events mat lbl
      (e.step_tag ++ n2) e.channels _ chan (e.step_tag ++ n1) hkey]
    exact hl1
  · rw [hl2, hvv]

/-- Witness for C7 at a concrete input: the `"init"` step of the witness
engine snapshotted under the two output names `"a"` and `"b"`. -/
theorem c7_snapshot_no_mutation_witness :
    (make_snapshot wE1 [1, 2, 3] (fun l => l) "init" "a").1.selector =
      wE1.selector ∧
    (make_snapshot wE1 [1, 2, 3] (fun l => l) "init" "a").1.steps =
      wE1.steps ∧
    (make_snapshot (make_snapshot wE1 [1, 2, 3] (fun l => l) "init" "a").1
      [1, 2, 3] (fun l => l) "init" "b").1.selector = wE1.selector ∧
    (make_snapshot (make_snapshot wE1 [1, 2, 3] (fun l => l) "init" "a").1
      [1, 2, 3] (fun l => l) "init" "b").1.steps = wE1.steps ∧
    ∀ chan ∈ List.map Prod.fst wE1.channels, ∃ v,
      lookup2 (make_snapshot
        (make_snapshot wE1 [1, 2, 3] (fun l => l) "init" "a").1
        [1, 2, 3] (fun l => l) "init" "b").1.minitree chan
        (wE1.step_tag ++ "a") = some v ∧
      lookup2 (make_snapshot
        (make_snapshot wE1 [1, 2, 3] (fun l => l) "init" "a").1
        [1, 2, 3] (fun l => l) "init" "b").1.minitree chan
        (wE1.step_tag ++ "b") = some v :=
  c7_snapshot_no_mutation wE1
    (make_snapshot wE1 [1, 2, 3] (fun l => l) "init" "a").1
    (make_snapshot (make_snapshot wE1 [1, 2, 3] (fun l => l) "init" "a").1
      [1, 2, 3] (fun l => l) "init" "b").1
    [1, 2, 3] (fun l => l) "init" "a" "b" rfl rfl (by decide)

theorem PyDict.contains_insert_self {α : Type} (m : PyDict α) (k : String)
    (v : α) : PyDict.contains (PyDict.insert m k v) k = true := by
  unfold PyDict.contains
  rw [PyDict.find?_insert, if_pos rfl]
  rfl

theorem PyDict.contains_insert_of_contains {α : Type} (m : PyDict α)
    (k k' : String) (v : α) (h : PyDict.contains m k' = true) :
    PyDict.contains (PyDict.insert m k v) k' = true := by
  unfold PyDict.contains at *
  rw [PyDict.find?_insert]
  by_cases hk : k = k'
  · rw [if_pos hk]; rfl
  · rw [if_neg hk]; exact h

theorem PyDict.contains_insert_of_ne {α : Type} (m : PyDict α)
    (k k' : String) (v : α) (hne : k ≠ k')
    (h : PyDict.contains m k' = false) :
    PyDict.contains (PyDict.insert m k v) k' = false := by
  unfold PyDict.contains at *
  rw [PyDict.find?_insert, if_neg hne]
  exact h

theorem buildHltIndexMap_preserves :
    ∀ (rest : List String) (i : Nat) (m : PyDict Nat) (k : String),
      PyDict.contains m k = true →
      PyDict.find? (buildHltIndexMap rest i m) k = PyDict.find? m k := by
  intro rest
  induction rest with
  | nil => intro i m k _; rfl
  | cons n rest' ih =>
    intro i m k hk
    cases hc : PyDict.contains m n with
    | true => simp only [buildHltIndexMap, hc, if_true]
    | false =>
      have hne : n ≠ k := by
        intro h; rw [h] at hc; rw [hc] at hk; cases hk
      simp only [buildHltIndexMap, hc, Bool.false_eq_true, if_false]
      rw [ih (i + 1) (PyDict.insert m n i) k
        (PyDict.contains_insert_of_contains m n k i hk)]
      rw [PyDict.find?_insert, if_neg hne]

theorem buildHltIndexMap_sound (names : List String) :
    ∀ (rest : List String) (i : Nat) (m : PyDict Nat),
      names.drop i = rest →
      (∀ k v, PyDict.find? m k = some v →
        names[v]? = some k ∧ ∀ j < v, names[j]? ≠ some k) →
      (∀ j < i, ∀ nm, names[j]? = some nm →
        PyDict.contains m nm = true) →
      ∀ k v, PyDict.find? (buildHltIndexMap rest i m) k = some v →
        names[v]? = some k ∧ ∀ j < v, names[j]? ≠ some k := by
  intro rest
  induction rest with
  | nil => intro i m _ hm _ k v h; exact hm k v h
  | cons n rest' ih =>
    intro i m hdrop hm hpre k v h
    have hni : names[i]? = some n := by
      have h2 := List.getElem?_drop names i 0
      rw [hdrop] at h2
      simpa using h2.symm
    cases hc : PyDict.contains m n with
    | true =>
      simp only [buildHltIndexMap, hc, if_true] at h
      exact hm k v h
    | false =>
      simp only [buildHltIndexMap, hc, Bool.false_eq_true, if_false] at h
      have hdrop' : names.drop (i + 1) = rest' := by
        rw [show i + 1 = i + 1 from rfl, ← List.drop_drop 1 i names, hdrop]
        rfl
      have hm' : ∀ k' v', PyDict.find? (PyDict.insert m n i) k' = some v' →
          names[v']? = some k' ∧ ∀ j < v', names[j]? ≠ some k' := by
        intro k' v' h'
        rw [PyDict.find?_insert] at h'
        by_cases hnk : n = k'
        · rw [if_pos hnk] at h'
          cases h'
          subst hnk
          refine ⟨hni, ?_⟩
          intro j hj hjn
          have := hpre j hj n hjn
          rw [this] at hc
          cases hc
        · rw [if_neg hnk] at h'
          exact hm k' v' h'
      have hpre' : ∀ j < i + 1, ∀ nm, names[j]? = some nm →
          PyDict.contains (PyDict.insert m n i) nm = true := by
        intro j hj nm hjnm
        by_cases hji : j < i
        · exact PyDict.contains_insert_of_contains m n nm i
            (hpre j hji nm hjnm)
        · have hjeq : j = i := by omega
          rw [hjeq] at hjnm
          rw [hni] at hjnm
          cases hjnm
          exact PyDict.contains_insert_self m n i
      exact ih (i + 1) (PyDict.insert m n i) hdrop' hm' hpre' k v h

theorem buildHltIndexMap_complete :
    ∀ (rest : List String) (i : Nat) (m : PyDict Nat),
      (∀ x ∈ rest, PyDict.contains m x = false) →
      rest.Nodup →
      ∀ (j : Nat) (n : String), rest[j]? = some n →
        PyDict.find? (buildHltIndexMap rest i m) n = some (i + j) := by
  intro rest
  induction rest with
  | nil => intro i m _ _ j n h; simp at h
  | cons nh rest' ih =>
    intro i m hfresh hnodup j n h
    rw [List.nodup_cons] at hnodup
    have hch : PyDict.contains m nh = false := hfresh nh (by simp)
    simp only [buildHltIndexMap, hch, Bool.false_eq_true, if_false]
    cases j with
    | zero =>
      simp only [List.getElem?_cons_zero] at h
      cases h
      rw [buildHltIndexMap_preserves rest' (i + 1) (PyDict.insert m nh i) nh
        (PyDict.contains_insert_self m nh i)]
      rw [PyDict.find?_insert, if_pos rfl, Nat.add_zero]
    | succ j' =>
      simp only [List.getElem?_cons_succ] at h
      have hfresh' : ∀ x ∈ rest', PyDict.contains (PyDict.insert m nh i) x
          = false := by
        intro x hx
        have hxnh : nh ≠ x := by
          intro he; rw [← he] at hx; exact hnodup.1 hx
        exact PyDict.contains_insert_of_ne m nh x i hxnh (hfresh x (by simp [hx]))
      have := ih (i + 1) (PyDict.insert m nh i) hfresh' hnodup.2 j' n h
      rw [this]
      congr 1
      omega

/-- C8 counterexample: on the trigger-path list `["A", "A", "B"]` the
name-to-index loop stops (`break`) at the repeated `"A"`, so the name `"B"`,
although present in the list, is absent from the map — refuting the claim
that every name in the list is mapped. -/
theorem c8_counterexample :
    "B" ∈ ["A", "A", "B"] ∧
    PyDict.find? (buildHltIndexMap ["A", "A", "B"] 0 []) "B" = none := by
  decide

/-- C8 amended: the name-to-index map sends each name it contains to the
index of that name's first occurrence in the run's trigger-path list; the
scan stops at the first repeated name, so a name first occurring at or
after the stopping point is absent; in particular, when the list has no
duplicate names, every name of the list is mapped to its index. -/
theorem c8_amended_index_map (names : List String) :
    (∀ n i, PyDict.find? (buildHltIndexMap names 0 []) n = some i →
      names[i]? = some n ∧ ∀ j < i, names[j]? ≠ some n) ∧
    (names.Nodup → ∀ i n, names[i]? = some n →
      PyDict.find? (buildHltIndexMap names 0 []) n = some i) := by
  constructor
  · intro n i h
    exact buildHltIndexMap_sound names names 0 [] (by simp)
      (by intro k v hkv; simp [PyDict.find?] at hkv)
      (by intro j hj nm _; omega) n i h
  · intro hnodup i n h
    have := buildHltIndexMap_complete names 0 []
      (by intro x _; rfl) hnodup i n h
    simpa using this

/-- Witness for C8 (amended) at a concrete input: the duplicate-free list
`["HLT_A", "HLT_B"]`, on which `"HLT_B"` is mapped to its index 1 and that
index points back at `"HLT_B"` with no earlier occurrence. -/
theorem c8_amended_index_map_witness :
    (["HLT_A", "HLT_B"] : List String)[1]? = some "HLT_B" ∧
    (∀ j < 1, (["HLT_A", "HLT_B"] : List String)[j]? ≠ some "HLT_B") ∧
    PyDict.find? (buildHltIndexMap ["HLT_A", "HLT_B"] 0 []) "HLT_B" =
      some 1 :=
  ⟨((c8_amended_index_map ["HLT_A", "HLT_B"]).1 "HLT_B" 1 (by decide)).1,
   ((c8_amended_index_map ["HLT_A", "HLT_B"]).1 "HLT_B" 1 (by decide)).2,
   (c8_amended_index_map ["HLT_A", "HLT_B"]).2 (by decide) 1 "HLT_B"
     (by decide)⟩

theorem orFold_length (events : List (List Nat)) :
    ∀ (idxs : List Nat) (m : List Bool), m.length = events.length →
      (idxs.foldl (fun m i => List.zipWith (fun a b => a || b) m
        (events.map (fun ev => ev.contains i))) m).length =
        events.length := by
  intro idxs
  induction idxs with
  | nil => intro m h; exact h
  | cons i rest ih =>
    intro m h
    apply ih
    simp [List.length_zipWith, h]

theorem groupMask_length (events : List (List Nat)) (idxmap : PyDict Nat)
    (isData : Bool) (dataset : String) (g : HltGroup) :
    (groupMask events idxmap isData dataset g).length = events.length := by
  unfold groupMask
  split
  · simp [falseMask]
  · dsimp only
    split
    · simp [falseMask]
    · exact orFold_length events _ _ (by simp)

theorem PyDict.find?_map_val {α β : Type} (f : String × α → β) :
    ∀ (l : List (String × α)) (c : String) (v : β),
      PyDict.find? (l.map (fun p => (p.1, f p))) c = some v →
      ∃ p, p ∈ l ∧ v = f p := by
  intro l
  induction l with
  | nil => intro c v h; simp [PyDict.find?] at h
  | cons hd tl ih =>
    intro c v h
    simp only [List.map_cons] at h
    by_cases hac : hd.1 = c
    · simp only [PyDict.find?, if_pos hac] at h
      exact ⟨hd, by simp, (Option.some.inj h).symm⟩
    · simp only [PyDict.find?, if_neg hac] at h
      obtain ⟨p, hp, hv⟩ := ih c v h
      exact ⟨p, by simp [hp], hv⟩

theorem mGet_totMasks_length (events : List (List Nat))
    (idxmap : PyDict Nat) (isData : Bool) (dataset : String)
    (hlt : PyDict HltGroup) (name : String) :
    (mGet (totMasks events idxmap isData dataset hlt) events name).length =
      events.length := by
  unfold mGet totMasks
  cases hf : PyDict.find?
      (hlt.map (fun p => (p.1, groupMask events idxmap isData dataset p.2)))
      name with
  | none => simp [falseMask]
  | some mask =>
    obtain ⟨p, _, hv⟩ := PyDict.find?_map_val
      (fun p => groupMask events idxmap isData dataset p.2) hlt name mask hf
    simp only [Option.getD_some, hv]
    exact groupMask_length events idxmap isData dataset p.2

theorem mAnd_mNot_getD :
    ∀ (xs ys : List Bool), xs.length = ys.length → ∀ (i : Nat),
      ((mAnd xs (mNot ys)).getD i false = true ↔
        (xs.getD i false = true ∧ ys.getD i false = false)) := by
  intro xs
  induction xs with
  | nil =>
    intro ys h i
    cases ys with
    | nil => simp [mAnd, mNot]
    | cons y yt => simp at h
  | cons x xt ih =>
    intro ys h i
    cases ys with
    | nil => simp at h
    | cons y yt =>
      cases i with
      | zero =>
        simp only [mAnd, mNot, List.map_cons, List.zipWith_cons_cons,
          List.getD_cons_zero]
        cases x <;> cases y <;> simp
      | succ n =>
        simp only [mAnd, mNot, List.map_cons, List.zipWith_cons_cons,
          List.getD_cons_succ]
        exact ih yt (by simpa using h) n

/-- C9 counterexample: the (channel, dataset) combination
`("etau", "EGamma")` is not in the data-mode table, yet the call raises
ValueError instead of yielding an all-false mask — refuting the claim that
every combination not in the table degrades gracefully. -/
theorem c9_counterexample :
    dilepton_hlt_mask wEvents "etau" wHltMap wHltCfg =
      .error (.valueError ("Channel etau not supported.")) := by
  rfl

/-- C9 amended: for data, the per-channel trigger decision is computed from
the dataset-identity string (sample-name suffix, capitalized) via the fixed
per-(channel, dataset) table with anti-overlap subtraction — for channel
`"emu"` on an EGamma dataset the event is selected iff it fired the
single-electron group `"se"` and did not fire the `"emu"` cross-trigger
group — and for each of the three configured channels `"ee"`, `"emu"`,
`"mumu"` a dataset without a table row yields the all-false mask; a channel
outside the configured set, however, raises ValueError rather than
degrading to an all-false mask. -/
theorem c9_amended_data_table (events : List (List Nat))
    (hlt_map : List String) (cfg : HltCfg) (hd : cfg.isData = "True") :
    (datasetOf cfg.process = "EGamma" →
      dilepton_hlt_mask events "emu" hlt_map cfg =
        .ok (mAnd
          (mGet (totMasks events (buildHltIndexMap hlt_map 0 []) true
            (datasetOf cfg.process) cfg.hlt) events "se")
          (mNot (mGet (totMasks events (buildHltIndexMap hlt_map 0 []) true
            (datasetOf cfg.process) cfg.hlt) events "emu"))) ∧
      ∀ i : Nat,
        ((mAnd
          (mGet (totMasks events (buildHltIndexMap hlt_map 0 []) true
            (datasetOf cfg.process) cfg.hlt) events "se")
          (mNot (mGet (totMasks events (buildHltIndexMap hlt_map 0 []) true
            (datasetOf cfg.process) cfg.hlt) events "emu"))).getD i false
            = true ↔
          ((mGet (totMasks events (buildHltIndexMap hlt_map 0 []) true
            (datasetOf cfg.process) cfg.hlt) events "se").getD i false
              = true ∧
           (mGet (totMasks events (buildHltIndexMap hlt_map 0 []) true
            (datasetOf cfg.process) cfg.hlt) events "emu").getD i false
              = false))) ∧
    (datasetOf cfg.process ≠ "EGamma" →
      dilepton_hlt_mask events "ee" hlt_map cfg = .ok (falseMask events)) ∧
    (datasetOf cfg.process ∉ (["MuonEG", "EGamma", "SingleMuon", "Muon"] :
        List String) →
      dilepton_hlt_mask events "emu" hlt_map cfg = .ok (falseMask events)) ∧
    (datasetOf cfg.process ∉ (["Muon", "SingleMuon", "DoubleMuon"] :
        List String) →
      dilepton_hlt_mask events "mumu" hlt_map cfg =
        .ok (falseMask events)) ∧
    (∀ ch, ch ∉ (["ee", "emu", "mumu"] : List String) →
      dilepton_hlt_mask events ch hlt_map cfg =
        .error (.valueError ("Channel " ++ ch ++ " not supported."))) := by
  refine ⟨?_, ?_, ?_, ?_, ?_⟩
  · intro hEG
    constructor
    · simp [dilepton_hlt_mask, hd, hEG]
    · intro i
      apply mAnd_mNot_getD
      rw [mGet_totMasks_length, mGet_totMasks_length]
  · intro hne
    simp [dilepton_hlt_mask, hd, hne]
  · intro hnotin
    have h1 : datasetOf cfg.process ≠ "MuonEG" := by
      intro h; exact hnotin (by simp [h])
    have h2 : datasetOf cfg.process ≠ "EGamma" := by
      intro h; exact hnotin (by simp [h])
    have h3 : datasetOf cfg.process ≠ "SingleMuon" := by
      intro h; exact hnotin (by simp [h])
    have h4 : datasetOf cfg.process ≠ "Muon" := by
      intro h; exact hnotin (by simp [h])
    simp [dilepton_hlt_mask, hd, h1, h2, h3, h4]
  · intro hnotin
    have h1 : datasetOf cfg.process ≠ "Muon" := by
      intro h; exact hnotin (by simp [h])
    have h2 : datasetOf cfg.process ≠ "SingleMuon" := by
      intro h; exact hnotin (by simp [h])
    have h3 : datasetOf cfg.process ≠ "DoubleMuon" := by
      intro h; exact hnotin (by simp [h])
    simp [dilepton_hlt_mask, hd, h1, h2, h3]
  · intro ch hch
    have h1 : ch ≠ "ee" := by intro h; exact hch (by simp [h])
    have h2 : ch ≠ "emu" := by intro h; exact hch (by simp [h])
    have h3 : ch ≠ "mumu" := by intro h; exact hch (by simp [h])
    simp [dilepton_hlt_mask, hd, h1, h2, h3]

/-- Witness for C9 (amended) at a concrete input: the EGamma data
configuration of the witness. -/
theorem c9_amended_data_table_witness :
    (datasetOf wHltCfg.process = "EGamma" →
      dilepton_hlt_mask wEvents "emu" wHltMap wHltCfg =
        .ok (mAnd
          (mGet (totMasks wEvents (buildHltIndexMap wHltMap 0 []) true
            (datasetOf wHltCfg.process) wHltCfg.hlt) wEvents "se")
          (mNot (mGet (totMasks wEvents (buildHltIndexMap wHltMap 0 []) true
            (datasetOf wHltCfg.process) wHltCfg.hlt) wEvents "emu"))) ∧
      ∀ i : Nat,
        ((mAnd
          (mGet (totMasks wEvents (buildHltIndexMap wHltMap 0 []) true
            (datasetOf wHltCfg.process) wHltCfg.hlt) wEvents "se")
          (mNot (mGet (totMasks wEvents (buildHltIndexMap wHltMap 0 []) true
            (datasetOf wHltCfg.process) wHltCfg.hlt) wEvents "emu"))).getD
            i false = true ↔
          ((mGet (totMasks wEvents (buildHltIndexMap wHltMap 0 []) true
            (datasetOf wHltCfg.process) wHltCfg.hlt) wEvents "se").getD
              i false = true ∧
           (mGet (totMasks wEvents (buildHltIndexMap wHltMap 0 []) true
            (datasetOf wHltCfg.process) wHltCfg.hlt) wEvents "emu").getD
              i false = false))) ∧
    (datasetOf wHltCfg.process ≠ "EGamma" →
      dilepton_hlt_mask wEvents "ee" wHltMap wHltCfg =
        .ok (falseMask wEvents)) ∧
    (datasetOf wHltCfg.process ∉ (["MuonEG", "EGamma", "SingleMuon",
        "Muon"] : List String) →
      dilepton_hlt_mask wEvents "emu" wHltMap wHltCfg =
        .ok (falseMask wEvents)) ∧
    (datasetOf wHltCfg.process ∉ (["Muon", "SingleMuon", "DoubleMuon"] :
        List String) →
      dilepton_hlt_mask wEvents "mumu" wHltMap wHltCfg =
        .ok (falseMask wEvents)) ∧
    (∀ ch, ch ∉ (["ee", "emu", "mumu"] : List String) →
      dilepton_hlt_mask wEvents ch wHltMap wHltCfg =
        .error (.valueError ("Channel " ++ ch ++ " not supported."))) :=
  c9_amended_data_table wEvents wHltMap wHltCfg rfl
